import Mathlib

/-!
pg-sheets: value-to-cell encoding and the spreadsheet update payload.

A shallow embedding of `src/main.go`:

* `makeCell` (lines 172-214), `makeRow` (lines 164-170);
* the part of `main` from the column check to the construction of the
  batch-update request list (lines 83-148).

Library behaviour the source relies on is modelled next to it:

* `float64` is IEEE-754 binary64 with round-to-nearest, ties-to-even.  A finite
  value is carried as the rational number it denotes; every arithmetic result
  goes through `Float64.round`.
* `time.Time` is reduced to what the source observes: `Unix()` and
  `Location()`; `time.Date` converts a civil date and time of a location to
  Unix seconds through the zone table of the location.
* `interface{}` is a closed sum over the dynamic types (`Value`).
-/

namespace PgSheets

/-! ## IEEE-754 binary64 -/

/-- Floor of the base-2 logarithm of a natural number, by halving. -/
def log2Fuel : Nat → Nat → Nat
  | 0, _ => 0
  | fuel + 1, n => if n < 2 then 0 else log2Fuel fuel (n / 2) + 1

/-- Ceiling of the base-2 logarithm of a natural number, by halving upwards. -/
def clog2Fuel : Nat → Nat → Nat
  | 0, _ => 0
  | fuel + 1, n => if n < 2 then 0 else clog2Fuel fuel ((n + 1) / 2) + 1

/-- The binade of a rational: the integer `k` with `2^k ≤ |x| < 2^(k+1)`
(and `0` for `x = 0`). -/
def binade (x : ℚ) : ℤ :=
  if 1 ≤ |x| then (log2Fuel ⌊|x|⌋₊ ⌊|x|⌋₊ : ℤ) else -(clog2Fuel ⌈|x|⁻¹⌉₊ ⌈|x|⁻¹⌉₊ : ℤ)

/-- The rational `2^e` for an integer exponent. -/
def pow2 (e : ℤ) : ℚ :=
  if 0 ≤ e then ((2 ^ e.toNat : ℕ) : ℚ) else 1 / ((2 ^ (-e).toNat : ℕ) : ℚ)

/-- Round a rational to the nearest integer, ties to the even one. -/
def roundHalfEven (x : ℚ) : ℤ :=
  let f := ⌊x⌋
  let r := x - f
  if r < 1 / 2 then f else if 1 / 2 < r then f + 1 else if f % 2 = 0 then f else f + 1

/-- Exponent of the unit in the last place of the binary64 format at `x`:
53 significant bits in the normal range, the fixed spacing `2^-1074` below
`2^-1022`. -/
def ulpExp (x : ℚ) : ℤ := max (binade x) (-1022) - 52

/-- The multiple of the unit in the last place nearest to `x`, ties to even. -/
def roundToUlp (x : ℚ) : ℚ := (roundHalfEven (x / pow2 (ulpExp x)) : ℚ) * pow2 (ulpExp x)

/-- A binary64 value.  `finite q` is the finite value `q` other than negative
zero (so `finite 0` is `+0`). -/
inductive Float64
  | finite (q : ℚ)
  | negZero
  | posInf
  | negInf
  | nan
deriving DecidableEq

namespace Float64

/-- Zero with the given sign bit. -/
def signedZero (neg : Bool) : Float64 := if neg then negZero else finite 0

/-- Infinity with the given sign bit. -/
def signedInf (neg : Bool) : Float64 := if neg then negInf else posInf

/-- Sign bit of a value (false for NaN). -/
def isNeg : Float64 → Bool
  | finite q => decide (q < 0)
  | negZero => true
  | posInf => false
  | negInf => true
  | nan => false

/-- Is the value a zero of either sign. -/
def isZero : Float64 → Bool
  | finite q => decide (q = 0)
  | negZero => true
  | _ => false

/-- The rational a value denotes (`0` for the zeros; `0` by convention for
infinities and NaN, which denote no rational). -/
def toRat : Float64 → ℚ
  | finite q => q
  | _ => 0

/-- Round an exact result to binary64: nearest, ties to even; overflow to an
infinity; a negative result that rounds to zero is negative zero. -/
def round (x : ℚ) : Float64 :=
  let r := roundToUlp x
  if 2 ^ 1024 ≤ |r| then signedInf (decide (x < 0))
  else if r = 0 ∧ x < 0 then negZero
  else finite r

/-- Conversion `float64(n)` of an integer. -/
def ofInt (n : ℤ) : Float64 := round n

/-- Binary64 division `a / b`. -/
def div (a b : Float64) : Float64 :=
  match a, b with
  | nan, _ => nan
  | _, nan => nan
  | posInf, posInf => nan
  | posInf, negInf => nan
  | negInf, posInf => nan
  | negInf, negInf => nan
  | posInf, b => signedInf (b.isNeg)
  | negInf, b => signedInf (!b.isNeg)
  | a, posInf => signedZero (a.isNeg)
  | a, negInf => signedZero (!a.isNeg)
  | a, b =>
    if b.isZero then
      if a.isZero then nan else signedInf (a.isNeg != b.isNeg)
    else if a.isZero then signedZero (a.isNeg != b.isNeg)
    else round (a.toRat / b.toRat)

/-- Binary64 addition `a + b`. -/
def add (a b : Float64) : Float64 :=
  match a, b with
  | nan, _ => nan
  | _, nan => nan
  | posInf, negInf => nan
  | negInf, posInf => nan
  | posInf, _ => posInf
  | negInf, _ => negInf
  | _, posInf => posInf
  | _, negInf => negInf
  | negZero, negZero => negZero
  | negZero, b => b
  | a, negZero => a
  | finite x, finite y => round (x + y)

end Float64

/-! ## Machine integers and time -/

/-- Wrap of an integer to the range of `int64`, as machine arithmetic does. -/
def int64Wrap (x : ℤ) : ℤ := (x + 2 ^ 63) % 2 ^ 64 - 2 ^ 63

/-- A zone transition: from Unix second `when` on, the offset east of UTC is
`offset` seconds. -/
structure zoneTrans where
  when : ℤ
  offset : ℤ
deriving DecidableEq

/-- A time zone: the offset in force before the first transition, and the
transitions in ascending order of `when`. -/
structure Location where
  name : String
  firstOffset : ℤ
  tx : List zoneTrans
deriving DecidableEq

/-- The zone `time.UTC`. -/
def UTC : Location := ⟨"UTC", 0, []⟩

/-- The zone `time.FixedZone(name, offset)`. -/
def FixedZone (name : String) (offset : ℤ) : Location := ⟨name, offset, []⟩

/-- Earliest second a zone rule can start at. -/
def alpha : ℤ := -2 ^ 63

/-- Latest second a zone rule can end at. -/
def omega : ℤ := 2 ^ 63 - 1

/-- Scan of the transitions for the rule in force at `sec`; returns
`(offset, start, end)`. -/
def lookupFrom (offset start : ℤ) : List zoneTrans → ℤ → ℤ × ℤ × ℤ
  | [], _ => (offset, start, omega)
  | tr :: rest, sec =>
    if sec < tr.when then (offset, start, tr.when) else lookupFrom tr.offset tr.when rest sec

/-- The rule of the location in force at Unix second `sec`:
`(offset, start, end)`. -/
def Location.lookup (l : Location) (sec : ℤ) : ℤ × ℤ × ℤ :=
  lookupFrom l.firstOffset alpha l.tx sec

/-- A `time.Time`, as far as the program observes it. -/
structure Time where
  unixSec : ℤ
  nsec : ℕ
  loc : Location
deriving DecidableEq

/-- The method `t.Unix()`. -/
def Time.Unix (t : Time) : ℤ := t.unixSec

/-- The method `t.Location()`. -/
def Time.Location (t : Time) : Location := t.loc

/-- Gregorian leap year. -/
def isLeap (year : ℤ) : Bool := year % 4 = 0 && (year % 100 != 0 || year % 400 = 0)

/-- Days in the year before the first of each month, in a common year. -/
def daysBefore : List ℤ := [0, 31, 59, 90, 120, 151, 181, 212, 243, 273, 304, 334]

/-- Days from 1970-01-01 to the given civil date (month 1..12, day 1..31). -/
def daysSinceEpoch (year month day : ℤ) : ℤ :=
  let y := year - 1
  let d := 365 * y + y / 4 - y / 100 + y / 400 - 719162
  let d := d + daysBefore.getD (month - 1).toNat 0
  let d := if isLeap year && decide (3 ≤ month) then d + 1 else d
  d + (day - 1)

/-- The offset `time.Date` subtracts for a wall-clock reading `unix` (seconds
counted as if the reading were UTC): the offset of the rule found at `unix`,
or, when the shifted instant falls outside that rule, the offset of the rule
found at the shifted instant. -/
def Location.offsetAtLocal (l : Location) (unix : ℤ) : ℤ :=
  let (offset, start, stop) := l.lookup unix
  if offset ≠ 0 then
    let utc := unix - offset
    if utc < start ∨ stop ≤ utc then (l.lookup utc).1 else offset
  else 0

/-- The function `time.Date(year, month, day, hour, min, sec, nsec, loc)` for
fields already in their ranges. -/
def Date (year month day hour min sec : ℤ) (nsec : ℕ) (loc : Location) : Time :=
  let unix := daysSinceEpoch year month day * 86400 + hour * 3600 + min * 60 + sec
  ⟨unix - loc.offsetAtLocal unix, nsec, loc⟩

/-! ## Column values and cells -/

/-- A value held in an `interface{}`, by dynamic type.  Integer payloads are
the numeric value (within the range of the type); `float32` carries its value
widened. -/
inductive Value
  | nil
  | string (s : String)
  | bool (b : Bool)
  | int (n : ℤ)
  | int8 (n : ℤ)
  | int16 (n : ℤ)
  | int32 (n : ℤ)
  | int64 (n : ℤ)
  | uint (n : ℤ)
  | uint8 (n : ℤ)
  | uint16 (n : ℤ)
  | uint32 (n : ℤ)
  | uint64 (n : ℤ)
  | float32 (f : Float64)
  | float64 (f : Float64)
  | time (t : Time)
  | bytes (b : List ℕ)
  | other (typeName : String)
deriving DecidableEq

/-- What the verb `%T` prints for a value. -/
def Value.typeName : Value → String
  | .nil => "<nil>"
  | .string _ => "string"
  | .bool _ => "bool"
  | .int _ => "int"
  | .int8 _ => "int8"
  | .int16 _ => "int16"
  | .int32 _ => "int32"
  | .int64 _ => "int64"
  | .uint _ => "uint"
  | .uint8 _ => "uint8"
  | .uint16 _ => "uint16"
  | .uint32 _ => "uint32"
  | .uint64 _ => "uint64"
  | .float32 _ => "float32"
  | .float64 _ => "float64"
  | .time _ => "time.Time"
  | .bytes _ => "[]uint8"
  | .other typeName => typeName

/-- The struct `sheets.ExtendedValue`, with the fields the program sets. -/
structure ExtendedValue where
  BoolValue : Option Bool
  NumberValue : Option Float64
  StringValue : Option String
deriving DecidableEq

/-- The struct `sheets.CellData`. -/
structure CellData where
  UserEnteredValue : Option ExtendedValue
deriving DecidableEq

/-- The struct `sheets.RowData`; a slot of `Values` is a pointer, `none` when nil. -/
structure RowData where
  Values : List (Option CellData)
deriving DecidableEq

/-- The closure `toNumberValue` of `makeCell`. -/
def toNumberValue (f : Float64) : CellData := ⟨some ⟨none, some f, none⟩⟩

/-- The closure `toStringValue` of `makeCell`. -/
def toStringValue (s : String) : CellData := ⟨some ⟨none, none, some s⟩⟩

/-- The closure `toBoolValue` of `makeCell`. -/
def toBoolValue (b : Bool) : CellData := ⟨some ⟨some b, none, none⟩⟩

/-- The function `makeCell`: a type switch on the dynamic type of `v`. -/
def makeCell (v : Value) : CellData :=
  match v with
  | .string s => toStringValue s
  | .int n => toNumberValue (Float64.ofInt n)
  | .int64 n => toNumberValue (Float64.ofInt n)
  | .float64 f => toNumberValue f
  | .bool b => toBoolValue b
  | .time t =>
    let base := Date 2000 1 1 0 0 0 0 t.Location
    let days := Float64.div (Float64.ofInt (int64Wrap (t.Unix - base.Unix))) (Float64.finite 86400)
    toNumberValue (Float64.add days (Float64.finite 36526))
  | v => toStringValue ("unparsed: " ++ v.typeName)

/-- The loop `for i, v := range r { cells[i] = makeCell(v) }`, from index `i`. -/
def fillCells (cells : List (Option CellData)) : ℕ → List Value → List (Option CellData)
  | _, [] => cells
  | i, v :: rest => fillCells (cells.set i (some (makeCell v))) (i + 1) rest

/-- The function `makeRow`. -/
def makeRow (r : List Value) : RowData :=
  let cells := List.replicate r.length (none : Option CellData)
  ⟨fillCells cells 0 r⟩

/-- Number of populated fields among text, number and boolean of a cell. -/
def populated (c : CellData) : ℕ :=
  match c.UserEnteredValue with
  | none => 0
  | some e => e.BoolValue.toList.length + e.NumberValue.toList.length + e.StringValue.toList.length

/-! ## The run: row assembly and update payload -/

/-- The command-line flags the modelled part of `main` reads. -/
structure Flags where
  SheetID : ℤ
  Append : Bool
  IncludeHeader : Bool
deriving DecidableEq

/-- The struct `sheets.AppendCellsRequest`. -/
structure AppendCellsRequest where
  Fields : String
  SheetId : ℤ
  Rows : List RowData
deriving DecidableEq

/-- The struct `sheets.GridProperties`. -/
structure GridProperties where
  RowCount : ℤ
  ColumnCount : ℤ
deriving DecidableEq

/-- The struct `sheets.SheetProperties`. -/
structure SheetProperties where
  SheetId : ℤ
  GridProperties : Option GridProperties
deriving DecidableEq

/-- The struct `sheets.UpdateSheetPropertiesRequest`. -/
structure UpdateSheetPropertiesRequest where
  Fields : String
  Properties : Option SheetProperties
deriving DecidableEq

/-- The struct `sheets.GridCoordinate`. -/
structure GridCoordinate where
  SheetId : ℤ
  RowIndex : ℤ
  ColumnIndex : ℤ
deriving DecidableEq

/-- The struct `sheets.UpdateCellsRequest`. -/
structure UpdateCellsRequest where
  Fields : String
  Start : Option GridCoordinate
  Rows : List RowData
deriving DecidableEq

/-- The struct `sheets.Request`: one optional field per kind of request. -/
structure Request where
  AppendCells : Option AppendCellsRequest
  UpdateSheetProperties : Option UpdateSheetPropertiesRequest
  UpdateCells : Option UpdateCellsRequest
deriving DecidableEq

/-- A step of the run that the properties speak about: the header row was
built (lines 90-94), `makeRow` was called on the scanned `dataRow` (line 109),
a request was appended to `reqs` (lines 117, 125, 137). -/
inductive Event
  | headerBuilt (cols : List String)
  | rowEncoded (dataRow : List Value)
  | requestBuilt (req : Request)
deriving DecidableEq

/-- How the modelled part of `main` ends: `log.Fatalf` with a message, or the
batch update is issued with the assembled rows and requests. -/
inductive Outcome
  | fatal (msg : String)
  | update (resultRows : List RowData) (reqs : List Request)
deriving DecidableEq

/-- A run: the steps it took, in program order, and how it ended. -/
structure Run where
  log : List Event
  outcome : Outcome
deriving DecidableEq

/-- The header row built at lines 90-94: one cell per column name. -/
def headerRow (cols : List String) : RowData :=
  let cells := List.replicate cols.length (none : Option CellData)
  ⟨fillCells cells 0 (cols.map Value.string)⟩

/-- The loop `for rows.Next()` of lines 104-110.  Each element of the cursor is
the result of one `rows.Scan`: an error, or the values left in `dataRow`. -/
def scanRows : List (Except String (List Value)) → List Event → List RowData →
    List Event × Except String (List RowData)
  | [], log, resultRows => (log, .ok resultRows)
  | .error err :: _, log, _ => (log, .error ("Failed to scan row: " ++ err))
  | .ok dataRow :: rest, log, resultRows =>
    scanRows rest (log ++ [Event.rowEncoded dataRow]) (resultRows ++ [makeRow dataRow])

/-- The request list built at lines 114-148. -/
def buildRequests (flags : Flags) (cols : List String) (resultRows : List RowData) :
    List Request :=
  let reqs : List Request := []
  if flags.Append then
    reqs ++ [⟨some ⟨"userEnteredValue", flags.SheetID, resultRows⟩, none, none⟩]
  else
    let reqs := reqs ++ [⟨none,
      some ⟨"gridProperties(rowCount,columnCount)",
        some ⟨flags.SheetID, some ⟨(resultRows.length : ℤ), (cols.length : ℤ)⟩⟩⟩, none⟩]
    reqs ++ [⟨none, none, some ⟨"userEnteredValue", some ⟨flags.SheetID, 0, 0⟩, resultRows⟩⟩]

/-- The function `main` from the column check (line 83) to the call of
`BatchUpdate` (line 150), for the column list `cols` of the query and the
cursor over its rows. -/
def main (flags : Flags) (cols : List String) (cursor : List (Except String (List Value))) :
    Run :=
  if cols.length = 0 then
    ⟨[], .fatal "No columns in result."⟩
  else
    let resultRows : List RowData := []
    let (log, resultRows) :=
      if flags.IncludeHeader && !flags.Append then
        ([Event.headerBuilt cols], resultRows ++ [headerRow cols])
      else
        (([] : List Event), resultRows)
    match scanRows cursor log resultRows with
    | (log, .error msg) => ⟨log, .fatal msg⟩
    | (log, .ok resultRows) =>
      let reqs := buildRequests flags cols resultRows
      ⟨log ++ reqs.map Event.requestBuilt, .update resultRows reqs⟩

/-! ## Vocabulary of the specification -/

/-- The dynamic type is text. -/
def Value.isText : Value → Bool
  | .string _ => true
  | _ => false

/-- The dynamic type is boolean. -/
def Value.isBoolean : Value → Bool
  | .bool _ => true
  | _ => false

/-- The dynamic type is an integer type, signed or unsigned, of any width. -/
def Value.isInteger : Value → Bool
  | .int _ | .int8 _ | .int16 _ | .int32 _ | .int64 _ => true
  | .uint _ | .uint8 _ | .uint16 _ | .uint32 _ | .uint64 _ => true
  | _ => false

/-- The dynamic type is a floating-point type. -/
def Value.isFloat : Value → Bool
  | .float32 _ | .float64 _ => true
  | _ => false

/-- The dynamic type is a timestamp. -/
def Value.isTimestamp : Value → Bool
  | .time _ => true
  | _ => false

/-- A numeric input cast to `float64`; `none` for an input that is not numeric. -/
def Value.castFloat64 : Value → Option Float64
  | .int n | .int8 n | .int16 n | .int32 n | .int64 n => some (Float64.ofInt n)
  | .uint n | .uint8 n | .uint16 n | .uint32 n | .uint64 n => some (Float64.ofInt n)
  | .float32 f | .float64 f => some f
  | _ => none

/-- The value is a finite number (of either sign of zero). -/
def Float64.isFinite : Float64 → Bool
  | .finite _ => true
  | .negZero => true
  | _ => false

/-- The offset east of UTC in force at the instant `t`, in seconds. -/
def Time.offset (t : Time) : ℤ := (t.loc.lookup t.unixSec).1

/-- The wall-clock reading of `t` in its zone, as seconds counted as if the
reading were UTC. -/
def Time.wallSec (t : Time) : ℤ := t.unixSec + t.offset

/-- The offset east of UTC that `time.Date` applies to local
2000-01-01T00:00:00 in the zone. -/
def baseOffset (loc : Location) : ℤ :=
  loc.offsetAtLocal (daysSinceEpoch 2000 1 1 * 86400)

/-- A zone with daylight saving in 2000: one hour east of UTC in winter, two
hours from 2000-03-26T01:00:00Z to 2000-10-29T01:00:00Z. -/
def summerZone : Location := ⟨"CET", 3600, [⟨954032400, 7200⟩, ⟨972781200, 3600⟩]⟩

/-! ## Properties -/

/-! ### Helper lemmas: the cell-filling loop -/

theorem fillCells_eq (r : List Value) :
    ∀ (cells : List (Option CellData)) (i : ℕ), cells.length = i + r.length →
      fillCells cells i r = cells.take i ++ r.map (fun v => some (makeCell v)) := by
  induction r with
  | nil =>
    intro cells i h
    simp only [fillCells, List.map_nil, List.append_nil]
    rw [List.take_of_length_le]
    simp at h
    omega
  | cons v rest ih =>
    intro cells i h
    simp only [List.length_cons] at h
    have hi : i < cells.length := by omega
    rw [fillCells, ih _ _ (by rw [List.length_set]; omega)]
    have ht : (cells.set i (some (makeCell v))).take i = cells.take i := by
      rw [List.set_take]
      exact List.set_eq_of_length_le (by simp)
    rw [List.take_succ, ht]
    simp [hi]

theorem makeRow_values (r : List Value) :
    (makeRow r).Values = r.map (fun v => some (makeCell v)) := by
  unfold makeRow
  simp only
  rw [fillCells_eq r _ 0 (by simp)]
  simp

theorem headerRow_values (cols : List String) :
    (headerRow cols).Values = cols.map (fun c => some (toStringValue c)) := by
  unfold headerRow
  simp only
  rw [fillCells_eq _ _ 0 (by simp)]
  simp [List.map_map, Function.comp_def, makeCell]

theorem populated_makeCell (v : Value) : populated (makeCell v) = 1 := by
  cases v <;> rfl

/-! ### C2 -/

/-- C2 (as stated, refuted): an `int32` input is an integer input, yet `makeCell`
returns the diagnostic text cell for it and not the number cell holding the
input cast to floating-point. -/
theorem C2_counterexample :
    (Value.int32 5).isInteger = true ∧
    (Value.int32 5).castFloat64 = some (Float64.finite 5) ∧
    makeCell (Value.int32 5) = toStringValue "unparsed: int32" ∧
    makeCell (Value.int32 5) ≠ toNumberValue (Float64.finite 5) := by
  refine ⟨rfl, by decide!, rfl, by decide⟩

/-- C2 (amended): for every `int`, `int64` and `float64` input `makeCell` returns
a number cell, only the number field populated, whose value is the input cast
to `float64`; an input of any other integer width, of an unsigned integer type
or of type `float32` gets the diagnostic text cell naming its type. -/
theorem C2_number_cell_for_int_int64_float64 (n : ℤ) (f : Float64) :
    (makeCell (Value.int n) = ⟨some ⟨none, some (Float64.ofInt n), none⟩⟩ ∧
     makeCell (Value.int64 n) = ⟨some ⟨none, some (Float64.ofInt n), none⟩⟩ ∧
     makeCell (Value.float64 f) = ⟨some ⟨none, some f, none⟩⟩) ∧
    ((Value.int n).castFloat64 = some (Float64.ofInt n) ∧
     (Value.int64 n).castFloat64 = some (Float64.ofInt n) ∧
     (Value.float64 f).castFloat64 = some f) ∧
    (makeCell (Value.int8 n) = toStringValue "unparsed: int8" ∧
     makeCell (Value.int16 n) = toStringValue "unparsed: int16" ∧
     makeCell (Value.int32 n) = toStringValue "unparsed: int32" ∧
     makeCell (Value.uint n) = toStringValue "unparsed: uint" ∧
     makeCell (Value.uint8 n) = toStringValue "unparsed: uint8" ∧
     makeCell (Value.uint16 n) = toStringValue "unparsed: uint16" ∧
     makeCell (Value.uint32 n) = toStringValue "unparsed: uint32" ∧
     makeCell (Value.uint64 n) = toStringValue "unparsed: uint64" ∧
     makeCell (Value.float32 f) = toStringValue "unparsed: float32") := by
  refine ⟨⟨rfl, rfl, rfl⟩, ⟨rfl, rfl, rfl⟩, rfl, rfl, rfl, rfl, rfl, rfl, rfl, rfl, rfl⟩

/-! ### C3 -/

/-- C3: for every text input `s`, `makeCell` returns the text cell holding
exactly `s`, and for every boolean input `b` the boolean cell holding exactly
`b`; in both cells exactly one of the text, number and boolean fields is
populated. -/
theorem C3_text_and_bool_verbatim (s : String) (b : Bool) :
    makeCell (Value.string s) = ⟨some ⟨none, none, some s⟩⟩ ∧
    makeCell (Value.bool b) = ⟨some ⟨some b, none, none⟩⟩ ∧
    populated (makeCell (Value.string s)) = 1 ∧
    populated (makeCell (Value.bool b)) = 1 :=
  ⟨rfl, rfl, rfl, rfl⟩

/-! ### C4 -/

/-- C4: `makeCell` is a total function into cells (there is no error result),
every cell it returns has exactly one field populated, and for every input
whose dynamic type is not text, boolean, integer, floating-point or timestamp
(nil included) the cell is the text cell holding "unparsed: " followed by the
name of the dynamic type. -/
theorem C4_unrecognized_type_diagnostic (v : Value)
    (hText : v.isText = false) (hBool : v.isBoolean = false) (hInt : v.isInteger = false)
    (hFloat : v.isFloat = false) (hTime : v.isTimestamp = false) :
    makeCell v = ⟨some ⟨none, none, some ("unparsed: " ++ v.typeName)⟩⟩ ∧
    populated (makeCell v) = 1 := by
  refine ⟨?_, populated_makeCell v⟩
  cases v <;> first | rfl | simp_all [Value.isText, Value.isBoolean, Value.isInteger, Value.isFloat, Value.isTimestamp]

/-- C4 at the nil input: the diagnostic names the type as `%T` prints it. -/
theorem C4_witness :
    makeCell Value.nil = ⟨some ⟨none, none, some "unparsed: <nil>"⟩⟩ ∧
    populated (makeCell Value.nil) = 1 :=
  C4_unrecognized_type_diagnostic Value.nil rfl rfl rfl rfl rfl

/-! ### C5 -/

/-- C5: `makeRow r` has exactly `len(r)` cells, cell `i` is `makeCell(r[i])` for
every index `i < len(r)`, and so the row is the element-wise image of `r`
under `makeCell`. -/
theorem C5_makeRow_elementwise (r : List Value) :
    (makeRow r).Values.length = r.length ∧
    (∀ (i : ℕ) (h : i < r.length), (makeRow r).Values[i]? = some (some (makeCell r[i]))) ∧
    (makeRow r).Values = r.map (fun v => some (makeCell v)) := by
  rw [makeRow_values]
  refine ⟨by simp, ?_, rfl⟩
  intro i h
  simp [h]

/-! ### Helper lemmas: the run -/

theorem makeRow_eq (r : List Value) : makeRow r = ⟨r.map (fun v => some (makeCell v))⟩ := by
  have h := makeRow_values r
  cases hr : makeRow r with
  | mk vals => rw [hr] at h; simpa using h

theorem headerRow_eq (cols : List String) :
    headerRow cols = ⟨cols.map (fun c => some (toStringValue c))⟩ := by
  have h := headerRow_values cols
  cases hr : headerRow cols with
  | mk vals => rw [hr] at h; simpa using h

theorem scanRows_ok (rows : List (List Value)) :
    ∀ (log : List Event) (acc : List RowData),
      scanRows (rows.map Except.ok) log acc =
        (log ++ rows.map Event.rowEncoded, Except.ok (acc ++ rows.map makeRow)) := by
  induction rows with
  | nil => intro log acc; simp [scanRows]
  | cons r rest ih => intro log acc; simp [scanRows, ih]

theorem scanRows_log (cursor : List (Except String (List Value))) :
    ∀ (log : List Event) (acc : List RowData),
      ∃ more, (scanRows cursor log acc).1 = log ++ more := by
  induction cursor with
  | nil => intro log acc; exact ⟨[], by simp [scanRows]⟩
  | cons c rest ih =>
    intro log acc
    cases c with
    | error e => exact ⟨[], by simp [scanRows]⟩
    | ok r =>
      obtain ⟨more, hm⟩ := ih (log ++ [Event.rowEncoded r]) (acc ++ [makeRow r])
      exact ⟨Event.rowEncoded r :: more, by simp [scanRows, hm]⟩

theorem main_of_ok (flags : Flags) (cols : List String) (rows : List (List Value))
    (h : cols ≠ []) :
    main flags cols (rows.map Except.ok) =
      (if flags.IncludeHeader = true ∧ flags.Append = false then
        ⟨Event.headerBuilt cols :: rows.map Event.rowEncoded ++
            (buildRequests flags cols (headerRow cols :: rows.map makeRow)).map Event.requestBuilt,
          Outcome.update (headerRow cols :: rows.map makeRow)
            (buildRequests flags cols (headerRow cols :: rows.map makeRow))⟩
      else
        ⟨rows.map Event.rowEncoded ++
            (buildRequests flags cols (rows.map makeRow)).map Event.requestBuilt,
          Outcome.update (rows.map makeRow) (buildRequests flags cols (rows.map makeRow))⟩) := by
  have hl : ¬ cols.length = 0 := by
    intro h0; exact h (List.length_eq_zero.mp h0)
  unfold main
  rw [if_neg hl]
  cases hH : flags.IncludeHeader <;> cases hA : flags.Append <;> simp [scanRows_ok]

/-! ### C6 -/

/-- C6: for a non-empty column list and `n` scanned data rows the run reaches
the update with this row sequence: with the header requested in replace mode,
the header row (each column name as a text cell, in column order) followed by
`makeRow` of each data row in cursor order, `n + 1` rows; in append mode, or
with no header requested, the `n` encoded data rows alone.  A zero-row result
gives the header alone, respectively no row. -/
theorem C6_assembled_rows (flags : Flags) (cols : List String) (rows : List (List Value))
    (h : cols ≠ []) :
    (flags.IncludeHeader = true → flags.Append = false →
      (∃ reqs, (main flags cols (rows.map Except.ok)).outcome =
          Outcome.update (⟨cols.map (fun c => some (toStringValue c))⟩ :: rows.map makeRow) reqs) ∧
        (⟨cols.map (fun c => some (toStringValue c))⟩ :: rows.map makeRow : List RowData).length
          = rows.length + 1) ∧
    (flags.Append = true ∨ flags.IncludeHeader = false →
      (∃ reqs, (main flags cols (rows.map Except.ok)).outcome =
          Outcome.update (rows.map makeRow) reqs) ∧
        (rows.map makeRow).length = rows.length) ∧
    (flags.IncludeHeader = true → flags.Append = false →
      ∃ reqs, (main flags cols []).outcome =
        Outcome.update [⟨cols.map (fun c => some (toStringValue c))⟩] reqs) ∧
    (flags.Append = true → ∃ reqs, (main flags cols []).outcome = Outcome.update [] reqs) := by
  have key := main_of_ok flags cols
  refine ⟨?_, ?_, ?_, ?_⟩
  · intro hH hA
    refine ⟨?_, by simp⟩
    rw [key rows h, if_pos ⟨hH, hA⟩, headerRow_eq]
    exact ⟨_, rfl⟩
  · intro hor
    refine ⟨?_, by simp⟩
    rw [key rows h, if_neg]
    · exact ⟨_, rfl⟩
    · rintro ⟨hH, hA⟩
      rcases hor with h1 | h1 <;> simp_all
  · intro hH hA
    have := key [] h
    simp only [List.map_nil] at this
    rw [this, if_pos ⟨hH, hA⟩, headerRow_eq]
    exact ⟨_, rfl⟩
  · intro hA
    have := key [] h
    simp only [List.map_nil] at this
    rw [this, if_neg (by simp [hA])]
    exact ⟨_, rfl⟩

/-- C6 at two columns and one data row, header requested, replace mode: the
header row, then the encoded data row. -/
theorem C6_witness :
    (∃ reqs, (main ⟨7, false, true⟩ ["id", "name"]
        ([[Value.int64 1, Value.string "x"]].map Except.ok)).outcome =
      Outcome.update
        (⟨["id", "name"].map (fun c => some (toStringValue c))⟩ ::
          [[Value.int64 1, Value.string "x"]].map makeRow) reqs) ∧
      (⟨["id", "name"].map (fun c => some (toStringValue c))⟩ ::
          [[Value.int64 1, Value.string "x"]].map makeRow : List RowData).length = 1 + 1 :=
  (C6_assembled_rows ⟨7, false, true⟩ ["id", "name"] [[Value.int64 1, Value.string "x"]]
    (by decide)).1 rfl rfl

/-! ### C7 -/

/-- C7: a run that reaches the update has built exactly one of two request
lists, chosen by the append flag: in append mode the single append-cells
request carrying the assembled rows and the sheet id; in replace mode the
sheet-properties resize to (number of assembled rows) x (number of columns)
followed by the update-cells write of the same rows from row 0, column 0 of
the same sheet. -/
theorem C7_payload_shape (flags : Flags) (cols : List String)
    (cursor : List (Except String (List Value))) (resultRows : List RowData)
    (reqs : List Request)
    (h : (main flags cols cursor).outcome = Outcome.update resultRows reqs) :
    (flags.Append = true →
      reqs = [⟨some ⟨"userEnteredValue", flags.SheetID, resultRows⟩, none, none⟩]) ∧
    (flags.Append = false →
      reqs = [⟨none, some ⟨"gridProperties(rowCount,columnCount)",
                some ⟨flags.SheetID, some ⟨(resultRows.length : ℤ), (cols.length : ℤ)⟩⟩⟩, none⟩,
              ⟨none, none, some ⟨"userEnteredValue", some ⟨flags.SheetID, 0, 0⟩, resultRows⟩⟩]) := by
  have hreq : reqs = buildRequests flags cols resultRows := by
    unfold main at h
    split at h
    · simp at h
    · simp only at h
      split at h
      · simp at h
      · simp only [Outcome.update.injEq] at h
        obtain ⟨h1, h2⟩ := h
        rw [← h2, h1]
  subst hreq
  constructor
  · intro hA; simp [buildRequests, hA]
  · intro hA; simp [buildRequests, hA]

/-- C7 at a replace-mode run with a header and one data row (the resize to
2 rows x 2 columns, then the write from row 0, column 0) and at the
append-mode run over the same query (the single append-cells request). -/
theorem C7_witness :
    buildRequests ⟨7, false, true⟩ ["id", "name"]
        [headerRow ["id", "name"], makeRow [Value.int64 1, Value.string "x"]] =
      [⟨none, some ⟨"gridProperties(rowCount,columnCount)",
          some ⟨7, some ⟨((2 : ℕ) : ℤ), ((2 : ℕ) : ℤ)⟩⟩⟩, none⟩,
        ⟨none, none, some ⟨"userEnteredValue", some ⟨7, 0, 0⟩,
          [headerRow ["id", "name"], makeRow [Value.int64 1, Value.string "x"]]⟩⟩] ∧
    buildRequests ⟨7, true, true⟩ ["id", "name"]
        [makeRow [Value.int64 1, Value.string "x"]] =
      [⟨some ⟨"userEnteredValue", 7, [makeRow [Value.int64 1, Value.string "x"]]⟩,
        none, none⟩] :=
  ⟨(C7_payload_shape ⟨7, false, true⟩ ["id", "name"]
      [Except.ok [Value.int64 1, Value.string "x"]]
      [headerRow ["id", "name"], makeRow [Value.int64 1, Value.string "x"]]
      (buildRequests ⟨7, false, true⟩ ["id", "name"]
        [headerRow ["id", "name"], makeRow [Value.int64 1, Value.string "x"]]) rfl).2 rfl,
   (C7_payload_shape ⟨7, true, true⟩ ["id", "name"]
      [Except.ok [Value.int64 1, Value.string "x"]]
      [makeRow [Value.int64 1, Value.string "x"]]
      (buildRequests ⟨7, true, true⟩ ["id", "name"]
        [makeRow [Value.int64 1, Value.string "x"]]) rfl).1 rfl⟩

/-! ### C8 -/

/-- C8: with a column list of length zero the run ends in the fatal error
"No columns in result." having done nothing: no header built, no row encoded,
no request built.  Conversely, whenever the run builds a header, encodes a row
or builds a request, or reaches the update, the column list is non-empty. -/
theorem C8_zero_columns_rejected (flags : Flags) (cols : List String)
    (cursor : List (Except String (List Value))) :
    (cols.length = 0 →
      main flags cols cursor = ⟨[], Outcome.fatal "No columns in result."⟩) ∧
    (∀ e, e ∈ (main flags cols cursor).log → cols ≠ []) ∧
    (∀ resultRows reqs,
      (main flags cols cursor).outcome = Outcome.update resultRows reqs → cols ≠ []) := by
  have h0 : cols.length = 0 →
      main flags cols cursor = ⟨[], Outcome.fatal "No columns in result."⟩ := by
    intro h
    unfold main
    rw [if_pos h]
  refine ⟨h0, ?_, ?_⟩
  · intro e he hc
    rw [h0 (by simp [hc])] at he
    simp at he
  · intro rr reqs h hc
    rw [h0 (by simp [hc])] at h
    simp at h

/-- C8 at an empty column list, whatever the flags and the cursor hold. -/
theorem C8_witness :
    main ⟨7, false, true⟩ [] [Except.ok [Value.int64 1]] =
      ⟨[], Outcome.fatal "No columns in result."⟩ :=
  (C8_zero_columns_rejected ⟨7, false, true⟩ [] [Except.ok [Value.int64 1]]).1 rfl

/-! ### Helper lemmas: binary64 rounding -/

theorem log2Fuel_eq (fuel n : ℕ) (h : n ≤ fuel) : log2Fuel fuel n = Nat.log 2 n := by
  induction fuel generalizing n with
  | zero =>
    have : n = 0 := by omega
    subst this
    simp [log2Fuel]
  | succ k ih =>
    unfold log2Fuel
    split
    · rename_i h2
      exact (Nat.log_of_lt h2).symm
    · rename_i h2
      rw [Nat.log_of_one_lt_of_le (by norm_num) (by omega), ih (n / 2) (by omega)]

theorem clog2Fuel_eq (fuel n : ℕ) (h : n ≤ fuel) : clog2Fuel fuel n = Nat.clog 2 n := by
  induction fuel generalizing n with
  | zero =>
    have : n = 0 := by omega
    subst this
    simp [clog2Fuel]
  | succ k ih =>
    unfold clog2Fuel
    split
    · rename_i h2
      exact (Nat.clog_of_right_le_one (by omega) 2).symm
    · rename_i h2
      rw [Nat.clog_of_two_le (by norm_num) (by omega), ih ((n + 1) / 2) (by omega)]
      rfl

theorem binade_eq_log (x : ℚ) : binade x = Int.log 2 |x| := by
  unfold binade Int.log
  rw [log2Fuel_eq _ _ le_rfl, clog2Fuel_eq _ _ le_rfl]

theorem pow2_eq (e : ℤ) : pow2 e = (2 : ℚ) ^ e := by
  unfold pow2
  split
  · rename_i h
    obtain ⟨n, rfl⟩ := Int.eq_ofNat_of_zero_le h
    simp
  · rename_i h
    obtain ⟨n, hn⟩ := Int.eq_ofNat_of_zero_le (show 0 ≤ -e by omega)
    have he : e = -(n : ℤ) := by omega
    subst he
    simp

theorem pow2_pos (e : ℤ) : 0 < pow2 e := by
  rw [pow2_eq]; positivity

theorem abs_roundHalfEven_sub_le (y : ℚ) : |(roundHalfEven y : ℚ) - y| ≤ 1 / 2 := by
  have h1 := Int.floor_le y
  have h2 := Int.lt_floor_add_one y
  unfold roundHalfEven
  simp only
  split_ifs with ha hb hc
  · rw [abs_le]; constructor <;> linarith
  · rw [abs_le]; push_cast; constructor <;> linarith
  · rw [abs_le]; constructor <;> linarith
  · rw [abs_le]; push_cast; constructor <;> linarith

theorem roundHalfEven_intCast (k : ℤ) : roundHalfEven (k : ℚ) = k := by
  unfold roundHalfEven
  simp

theorem abs_roundToUlp_sub_le (x : ℚ) : |roundToUlp x - x| ≤ pow2 (ulpExp x) / 2 := by
  have hp := pow2_pos (ulpExp x)
  have h := abs_roundHalfEven_sub_le (x / pow2 (ulpExp x))
  unfold roundToUlp
  have e : (roundHalfEven (x / pow2 (ulpExp x)) : ℚ) * pow2 (ulpExp x) - x
      = ((roundHalfEven (x / pow2 (ulpExp x)) : ℚ) - x / pow2 (ulpExp x)) * pow2 (ulpExp x) := by
    field_simp
  rw [e, abs_mul, abs_of_pos hp]
  calc _ ≤ 1 / 2 * pow2 (ulpExp x) := by gcongr
    _ = _ := by ring

theorem ulpExp_le (x : ℚ) (K : ℕ) (h : |x| < 2 ^ (K + 1)) : ulpExp x ≤ (K : ℤ) - 52 := by
  unfold ulpExp
  have hb : binade x ≤ K := by
    rw [binade_eq_log]
    rcases eq_or_lt_of_le (abs_nonneg x) with h0 | h0
    · rw [← h0]; simp [Int.log_of_right_le_zero]
    · have := (Int.lt_zpow_iff_log_lt (b := 2) (by norm_num) h0 (x := (K : ℤ) + 1)).mp
        (by exact_mod_cast h)
      omega
  have : max (binade x) (-1022) ≤ (K : ℤ) := max_le hb (by omega)
  omega

theorem abs_roundToUlp_sub_le_of_lt (x : ℚ) (K : ℕ) (h : |x| < 2 ^ (K + 1)) :
    |roundToUlp x - x| ≤ 2 ^ K / 2 ^ 53 := by
  have h1 := abs_roundToUlp_sub_le x
  have h2 := ulpExp_le x K h
  have h3 : pow2 (ulpExp x) ≤ 2 ^ K / 2 ^ 52 := by
    rw [pow2_eq]
    calc (2 : ℚ) ^ (ulpExp x) ≤ 2 ^ ((K : ℤ) - 52) := zpow_le_zpow_right₀ (by norm_num) h2
      _ = 2 ^ K / 2 ^ 52 := by
        rw [zpow_sub₀ (by norm_num)]
        norm_cast
  calc |roundToUlp x - x| ≤ pow2 (ulpExp x) / 2 := h1
    _ ≤ (2 ^ K / 2 ^ 52) / 2 := by gcongr
    _ = 2 ^ K / 2 ^ 53 := by ring

theorem roundToUlp_zero : roundToUlp 0 = 0 := by
  unfold roundToUlp
  simp [roundHalfEven]

theorem roundToUlp_intCast (n : ℤ) (h : |n| < 2 ^ 53) : roundToUlp (n : ℚ) = n := by
  have hq : |(n : ℚ)| < 2 ^ (52 + 1) := by
    have : ((|n| : ℤ) : ℚ) < ((2 ^ 53 : ℤ) : ℚ) := by exact_mod_cast h
    simpa using this
  have he := ulpExp_le (n : ℚ) 52 hq
  obtain ⟨m, hm⟩ := Int.eq_ofNat_of_zero_le (show 0 ≤ -ulpExp (n : ℚ) by omega)
  have hx : ulpExp (n : ℚ) = -(m : ℤ) := by omega
  unfold roundToUlp
  rw [hx, pow2_eq]
  have e1 : (n : ℚ) / 2 ^ (-(m : ℤ)) = ((n * 2 ^ m : ℤ) : ℚ) := by
    rw [zpow_neg, div_inv_eq_mul, zpow_natCast]
    push_cast
    rfl
  rw [e1, roundHalfEven_intCast, zpow_neg, zpow_natCast]
  push_cast
  field_simp

theorem ofInt_eq_finite (n : ℤ) (h : |n| < 2 ^ 53) : Float64.ofInt n = Float64.finite n := by
  unfold Float64.ofInt Float64.round
  simp only [roundToUlp_intCast n h]
  have hq : |(n : ℚ)| < 2 ^ 53 := by
    have : ((|n| : ℤ) : ℚ) < ((2 ^ 53 : ℤ) : ℚ) := by exact_mod_cast h
    simpa using this
  have h2 : ¬ ((2 : ℚ) ^ 1024 ≤ |(n : ℚ)|) := by
    have : (2 : ℚ) ^ 53 ≤ 2 ^ 1024 := by norm_num
    intro hc; linarith
  rw [if_neg h2, if_neg]
  rintro ⟨h0, hneg⟩
  rw [h0] at hneg
  exact lt_irrefl _ hneg

theorem round_toRat (x : ℚ) (h : |roundToUlp x| < 2 ^ 1024) :
    (Float64.round x).toRat = roundToUlp x ∧ (Float64.round x).isFinite = true := by
  unfold Float64.round
  simp only
  rw [if_neg (not_le.mpr h)]
  split
  · rename_i h0
    exact ⟨by simp [Float64.toRat, h0.1], rfl⟩
  · exact ⟨rfl, rfl⟩

theorem div_finite_86400 (a : ℚ) (h : |roundToUlp (a / 86400)| < 2 ^ 1024) :
    (Float64.div (Float64.finite a) (Float64.finite 86400)).toRat = roundToUlp (a / 86400) ∧
    (Float64.div (Float64.finite a) (Float64.finite 86400)).isFinite = true := by
  by_cases ha : a = 0
  · subst ha
    norm_num [Float64.div, Float64.isZero, Float64.isNeg, Float64.signedZero, Float64.toRat,
      Float64.isFinite, roundToUlp_zero]
  · have e : Float64.div (Float64.finite a) (Float64.finite 86400) = Float64.round (a / 86400) := by
      simp [Float64.div, Float64.isZero, ha, Float64.toRat]
    rw [e]
    exact round_toRat _ h

theorem add_finite_36526 (f : Float64) (hf : f.isFinite = true)
    (h : |roundToUlp (f.toRat + 36526)| < 2 ^ 1024) :
    (Float64.add f (Float64.finite 36526)).toRat = roundToUlp (f.toRat + 36526) ∧
    (Float64.add f (Float64.finite 36526)).isFinite = true := by
  cases f with
  | finite x =>
    have e : Float64.add (Float64.finite x) (Float64.finite 36526) = Float64.round (x + 36526) := rfl
    rw [e]
    exact round_toRat _ h
  | negZero =>
    have e : Float64.add Float64.negZero (Float64.finite 36526) = Float64.finite 36526 := rfl
    have r : roundToUlp ((36526 : ℤ) : ℚ) = ((36526 : ℤ) : ℚ) := roundToUlp_intCast 36526 (by norm_num)
    rw [e]
    refine ⟨?_, rfl⟩
    simp only [Float64.toRat, zero_add]
    simpa using r.symm
  | posInf => simp [Float64.isFinite] at hf
  | negInf => simp [Float64.isFinite] at hf
  | nan => simp [Float64.isFinite] at hf

/-! ### Helper lemmas: timestamps -/

theorem date2000_unix (loc : Location) :
    (Date 2000 1 1 0 0 0 0 loc).Unix = 946684800 - baseOffset loc := by
  have h : daysSinceEpoch 2000 1 1 * 86400 = 946684800 := by decide
  simp only [Date, Time.Unix, baseOffset, mul_zero, zero_mul, add_zero, h]

theorem makeCell_time (t : Time) :
    makeCell (Value.time t) =
      toNumberValue (Float64.add (Float64.div
        (Float64.ofInt (int64Wrap (t.unixSec - (946684800 - baseOffset t.loc))))
        (Float64.finite 86400)) (Float64.finite 36526)) := by
  have h := date2000_unix t.loc
  simp only [makeCell, Time.Location, Time.Unix] at h ⊢
  rw [h]

theorem baseOffset_UTC : baseOffset UTC = 0 := by decide

theorem lookup_fixedZone (name : String) (o sec : ℤ) :
    (FixedZone name o).lookup sec = (o, alpha, omega) := rfl

theorem baseOffset_fixedZone (name : String) (o : ℤ) : baseOffset (FixedZone name o) = o := by
  unfold baseOffset Location.offsetAtLocal
  simp only [lookup_fixedZone]
  split_ifs with h1 h2
  · rfl
  · rfl
  · push_neg at h1; exact h1.symm

theorem int64Wrap_of_range (x : ℤ) (h1 : -2 ^ 63 ≤ x) (h2 : x < 2 ^ 63) : int64Wrap x = x := by
  unfold int64Wrap
  norm_num at h1 h2 ⊢
  omega

/-! ### C1 -/

/-- C1: for every timestamp `t`, in any zone, `makeCell` returns the number cell
holding `float64(t.Unix() - base.Unix()) / 86400 + 36526`, where `base` is
2000-01-01T00:00:00 in the zone of `t`, the difference is the `int64` one (the
plain difference whenever that fits 64 bits) and the division and the sum are
binary64 operations, so the fraction of a day is kept.  For
2000-01-01T00:00:00 UTC the value is exactly 36526 and for 2000-01-02T12:00:00
UTC exactly 36527.5. -/
theorem C1_date_serial_number (t : Time) :
    makeCell (Value.time t) =
      ⟨some ⟨none, some (Float64.add (Float64.div
        (Float64.ofInt (int64Wrap (t.Unix - (Date 2000 1 1 0 0 0 0 t.Location).Unix)))
        (Float64.finite 86400)) (Float64.finite 36526)), none⟩⟩ ∧
    (-2 ^ 63 ≤ t.Unix - (Date 2000 1 1 0 0 0 0 t.Location).Unix →
      t.Unix - (Date 2000 1 1 0 0 0 0 t.Location).Unix < 2 ^ 63 →
      int64Wrap (t.Unix - (Date 2000 1 1 0 0 0 0 t.Location).Unix) =
        t.Unix - (Date 2000 1 1 0 0 0 0 t.Location).Unix) ∧
    makeCell (Value.time (Date 2000 1 1 0 0 0 0 UTC)) =
      ⟨some ⟨none, some (Float64.finite 36526), none⟩⟩ ∧
    makeCell (Value.time (Date 2000 1 2 12 0 0 0 UTC)) =
      ⟨some ⟨none, some (Float64.finite (36526 + 3 / 2)), none⟩⟩ := by
  refine ⟨rfl, int64Wrap_of_range _, by decide!, by decide!⟩

/-! ### C10 -/

/-- C10: for a timestamp `t` whose zone is `o_t` seconds east of UTC at `t` and
`o_b` seconds east at local 2000-01-01T00:00:00, `makeCell` returns the serial
number of the wall-clock reading of `t` moved back by `o_t - o_b` seconds,
that is by `(o_t - o_b) / 86400` day (the serial number of a reading being
what `makeCell` returns for that reading in UTC).  In a fixed-offset zone
`o_t = o_b`, so the result is the serial number of the wall-clock reading
itself, the same in every such zone.  In a zone with daylight saving there is
a timestamp with `o_t - o_b = 3600` whose result is the serial number of the
reading one hour earlier, not that of its own reading, from which it lies
1/24 day away (to within 2^-38, the two being binary64 numbers). -/
theorem C10_zone_offset_shift :
    (∀ t : Time, makeCell (Value.time t) =
      makeCell (Value.time ⟨t.wallSec - (t.offset - baseOffset t.loc), t.nsec, UTC⟩)) ∧
    (∀ (t : Time) (name : String) (o : ℤ), t.loc = FixedZone name o →
      t.offset = baseOffset t.loc ∧
      makeCell (Value.time t) = makeCell (Value.time ⟨t.wallSec, t.nsec, UTC⟩)) ∧
    (∀ (t1 t2 : Time) (n1 n2 : String) (o1 o2 : ℤ),
      t1.loc = FixedZone n1 o1 → t2.loc = FixedZone n2 o2 → t1.wallSec = t2.wallSec →
      makeCell (Value.time t1) = makeCell (Value.time t2)) ∧
    (∃ (t : Time) (f g : ℚ), t = Date 2000 7 1 12 0 0 0 summerZone ∧
      t.offset - baseOffset t.loc = 3600 ∧
      makeCell (Value.time t) = makeCell (Value.time ⟨t.wallSec - 3600, t.nsec, UTC⟩) ∧
      makeCell (Value.time t) = toNumberValue (Float64.finite f) ∧
      makeCell (Value.time ⟨t.wallSec, t.nsec, UTC⟩) = toNumberValue (Float64.finite g) ∧
      f ≠ g ∧ |g - f - 1 / 24| < 1 / 2 ^ 38) := by
  have hshift : ∀ t : Time, makeCell (Value.time t) =
      makeCell (Value.time ⟨t.wallSec - (t.offset - baseOffset t.loc), t.nsec, UTC⟩) := by
    intro t
    rw [makeCell_time, makeCell_time, baseOffset_UTC]
    have e : t.wallSec - (t.offset - baseOffset t.loc) - (946684800 - 0) =
        t.unixSec - (946684800 - baseOffset t.loc) := by
      unfold Time.wallSec; ring
    simp only [e]
  have hfixed : ∀ (t : Time) (name : String) (o : ℤ), t.loc = FixedZone name o →
      t.offset = baseOffset t.loc ∧
      makeCell (Value.time t) = makeCell (Value.time ⟨t.wallSec, t.nsec, UTC⟩) := by
    intro t name o hl
    have ho : t.offset = baseOffset t.loc := by
      rw [Time.offset, hl, lookup_fixedZone, baseOffset_fixedZone]
    refine ⟨ho, ?_⟩
    rw [hshift t, ho, sub_self, sub_zero]
  refine ⟨hshift, hfixed, ?_, ?_⟩
  · intro t1 t2 n1 n2 o1 o2 h1 h2 hw
    rw [(hfixed t1 n1 o1 h1).2, (hfixed t2 n2 o2 h2).2, hw, makeCell_time, makeCell_time]
  · refine ⟨Date 2000 7 1 12 0 0 0 summerZone, 5045172096903851 / 137438953472, 73417 / 2,
      rfl, by decide, ?_, by decide!, by decide!, by norm_num, ?_⟩
    · have h := hshift (Date 2000 7 1 12 0 0 0 summerZone)
      have e : (Date 2000 7 1 12 0 0 0 summerZone).offset -
          baseOffset (Date 2000 7 1 12 0 0 0 summerZone).loc = 3600 := by decide
      rw [e] at h
      exact h
    · rw [abs_lt]; constructor <;> norm_num

/-! ### C9 -/

theorem serial_error_bound (d : ℤ) (k : ℕ) (hd : |d| < 2 ^ 53)
    (hK : |(d : ℚ)| / 86400 + 36526 < 2 ^ (k + 1)) (hk : k + 1 ≤ 1000) :
    ∃ f : Float64,
      Float64.add (Float64.div (Float64.ofInt (int64Wrap d)) (Float64.finite 86400))
        (Float64.finite 36526) = f ∧
      f.isFinite = true ∧ |f.toRat - ((d : ℚ) / 86400 + 36526)| ≤ 2 ^ (k + 1) / 2 ^ 52 := by
  have hdl := abs_lt.mp hd
  have hw : int64Wrap d = d := int64Wrap_of_range d (by omega) (by omega)
  rw [hw, ofInt_eq_finite d hd]
  have hP : (0 : ℚ) < 2 ^ k := by positivity
  have hM : 8 * (2 : ℚ) ^ k ≤ 2 ^ 1024 := by
    have : (2 : ℚ) ^ (k + 3) ≤ 2 ^ 1024 := pow_le_pow_right₀ (by norm_num) (by omega)
    calc 8 * (2 : ℚ) ^ k = 2 ^ (k + 3) := by ring
      _ ≤ 2 ^ 1024 := this
  have hK2 : |(d : ℚ)| / 86400 + 36526 < 2 * 2 ^ k := by
    calc |(d : ℚ)| / 86400 + 36526 < 2 ^ (k + 1) := hK
      _ = 2 * 2 ^ k := by ring
  have hx1a : |(d : ℚ) / 86400| = |(d : ℚ)| / 86400 := by
    rw [abs_div]; norm_num
  -- the quotient
  have hx1 : |(d : ℚ) / 86400| < 2 ^ (k + 1) := by
    rw [hx1a]; linarith
  have e1 := abs_roundToUlp_sub_le_of_lt _ k hx1
  have hr1 : |roundToUlp ((d : ℚ) / 86400)| ≤ |(d : ℚ)| / 86400 + 2 ^ k / 2 ^ 53 := by
    have := abs_sub_abs_le_abs_sub (roundToUlp ((d : ℚ) / 86400)) ((d : ℚ) / 86400)
    rw [hx1a] at this
    linarith
  have hs : (2 : ℚ) ^ k / 2 ^ 53 ≤ 2 ^ k := by
    rw [div_le_iff₀ (by positivity)]
    have : (1 : ℚ) ≤ 2 ^ 53 := by norm_num
    nlinarith
  obtain ⟨hq1, hf1⟩ := div_finite_86400 (d : ℚ) (by
    calc |roundToUlp ((d : ℚ) / 86400)| ≤ |(d : ℚ)| / 86400 + 2 ^ k / 2 ^ 53 := hr1
      _ < 8 * 2 ^ k := by linarith
      _ ≤ 2 ^ 1024 := hM)
  -- the sum
  have hx2 : |(Float64.div (Float64.finite (d : ℚ)) (Float64.finite 86400)).toRat + 36526|
      < 2 ^ (k + 1 + 1) := by
    rw [hq1]
    calc |roundToUlp ((d : ℚ) / 86400) + 36526|
        ≤ |roundToUlp ((d : ℚ) / 86400)| + |(36526 : ℚ)| := abs_add _ _
      _ = |roundToUlp ((d : ℚ) / 86400)| + 36526 := by norm_num
      _ < 4 * 2 ^ k := by linarith
      _ = 2 ^ (k + 1 + 1) := by ring
  have e2 := abs_roundToUlp_sub_le_of_lt _ (k + 1) hx2
  have hr2 : |roundToUlp ((Float64.div (Float64.finite (d : ℚ)) (Float64.finite 86400)).toRat
      + 36526)| < 8 * 2 ^ k := by
    have := abs_sub_abs_le_abs_sub
      (roundToUlp ((Float64.div (Float64.finite (d : ℚ)) (Float64.finite 86400)).toRat + 36526))
      ((Float64.div (Float64.finite (d : ℚ)) (Float64.finite 86400)).toRat + 36526)
    have h4 : (2 : ℚ) ^ (k + 1 + 1) = 4 * 2 ^ k := by ring
    have h5 : (2 : ℚ) ^ (k + 1) / 2 ^ 53 = 2 * (2 ^ k / 2 ^ 53) := by ring
    rw [h4] at hx2
    rw [h5] at e2
    linarith
  obtain ⟨hq2, hf2⟩ := add_finite_36526 _ hf1 (lt_of_lt_of_le hr2 hM)
  refine ⟨_, rfl, hf2, ?_⟩
  rw [hq2]
  have h5 : (2 : ℚ) ^ (k + 1) / 2 ^ 53 = 2 * (2 ^ k / 2 ^ 53) := by ring
  have h6 : (2 : ℚ) ^ (k + 1) / 2 ^ 52 = 4 * (2 ^ k / 2 ^ 53) := by ring
  rw [h5] at e2
  rw [h6]
  have hpos : (0 : ℚ) ≤ 2 ^ k / 2 ^ 53 := by positivity
  rw [hq1] at e2 ⊢
  have e3 : roundToUlp ((d : ℚ) / 86400) + 36526 - ((d : ℚ) / 86400 + 36526) =
      roundToUlp ((d : ℚ) / 86400) - (d : ℚ) / 86400 := by ring
  have h7 := abs_sub_le (roundToUlp (roundToUlp ((d : ℚ) / 86400) + 36526))
    (roundToUlp ((d : ℚ) / 86400) + 36526) ((d : ℚ) / 86400 + 36526)
  rw [e3] at h7
  linarith

/-- C9 (as stated, refuted): at 2000-03-05T00:03:58 UTC the number `makeCell`
returns is 2514445843066947 / 2^36, which is neither the number of days from
1899-12-30T00:00:00 UTC, 1580688119 / 43200, nor the binary64 quotient of the
elapsed seconds by 86400, 5028891686133893 / 2^37 (the binary64 number nearest
to the number of days). -/
theorem C9_counterexample :
    makeCell (Value.time ⟨952214638, 0, UTC⟩) =
      toNumberValue (Float64.finite (2514445843066947 / 2 ^ 36)) ∧
    ((952214638 - (Date 1899 12 30 0 0 0 0 UTC).Unix : ℤ) : ℚ) / 86400 = 1580688119 / 43200 ∧
    (2514445843066947 / 2 ^ 36 : ℚ) ≠ 1580688119 / 43200 ∧
    Float64.div (Float64.ofInt (952214638 - (Date 1899 12 30 0 0 0 0 UTC).Unix))
      (Float64.finite 86400) = Float64.finite (5028891686133893 / 2 ^ 37) ∧
    Float64.round (1580688119 / 43200) = Float64.finite (5028891686133893 / 2 ^ 37) ∧
    (2514445843066947 / 2 ^ 36 : ℚ) ≠ 5028891686133893 / 2 ^ 37 := by
  refine ⟨by decide!, by decide!, by norm_num, by decide!, by decide!, by norm_num⟩

/-- C9 (amended): 36526 is the serial number of 2000-01-01 under the 1899-12-30
epoch (exactly 36526 days of 86400 seconds lie between the two), and for every
UTC timestamp `t` within 2^53 seconds of 2000-01-01 `makeCell` returns a finite
number equal, up to binary64 rounding, to the number of days from
1899-12-30T00:00:00 UTC to `t`: whenever
`|unix(t) - unix(2000-01-01)| / 86400 + 36526 < 2^K` with `K ≤ 1000`, the two
differ by at most `2^K / 2^52`. -/
theorem C9_serial_up_to_rounding (t : Time) (K : ℕ) (hloc : t.Location = UTC)
    (hd : |t.Unix - (Date 2000 1 1 0 0 0 0 UTC).Unix| < 2 ^ 53)
    (hK : |((t.Unix - (Date 2000 1 1 0 0 0 0 UTC).Unix : ℤ) : ℚ)| / 86400 + 36526 < 2 ^ K)
    (hK2 : K ≤ 1000) :
    (Date 2000 1 1 0 0 0 0 UTC).Unix - (Date 1899 12 30 0 0 0 0 UTC).Unix = 36526 * 86400 ∧
    ∃ f : Float64, makeCell (Value.time t) = ⟨some ⟨none, some f, none⟩⟩ ∧
      f.isFinite = true ∧
      |f.toRat - ((t.Unix - (Date 1899 12 30 0 0 0 0 UTC).Unix : ℤ) : ℚ) / 86400|
        ≤ 2 ^ K / 2 ^ 52 := by
  have hb : (Date 2000 1 1 0 0 0 0 UTC).Unix = 946684800 := by decide
  have he : (Date 1899 12 30 0 0 0 0 UTC).Unix = -2209161600 := by decide
  refine ⟨by rw [hb, he]; norm_num, ?_⟩
  rw [hb] at hd hK
  rw [he]
  obtain ⟨k, rfl⟩ : ∃ k, K = k + 1 := by
    rcases K with _ | k
    · exfalso
      have : (0 : ℚ) ≤ |((t.Unix - 946684800 : ℤ) : ℚ)| / 86400 := by positivity
      simp only [pow_zero] at hK
      linarith
    · exact ⟨k, rfl⟩
  obtain ⟨f, hf, hfin, hbound⟩ := serial_error_bound (t.Unix - 946684800) k hd hK hK2
  refine ⟨f, ?_, hfin, ?_⟩
  · have hl : t.loc = UTC := hloc
    rw [makeCell_time, hl, baseOffset_UTC, sub_zero]
    exact congrArg toNumberValue hf
  · have e : ((t.Unix - -2209161600 : ℤ) : ℚ) / 86400 =
        ((t.Unix - 946684800 : ℤ) : ℚ) / 86400 + 36526 := by
      push_cast
      ring
    rw [e]
    exact hbound

/-- C9 (amended) at 2000-03-05T00:03:58 UTC with `K = 17`: the number returned
is within 2^-35 of the number of days since 1899-12-30. -/
theorem C9_witness :
    (Date 2000 1 1 0 0 0 0 UTC).Unix - (Date 1899 12 30 0 0 0 0 UTC).Unix = 36526 * 86400 ∧
    ∃ f : Float64, makeCell (Value.time ⟨952214638, 0, UTC⟩) = ⟨some ⟨none, some f, none⟩⟩ ∧
      f.isFinite = true ∧
      |f.toRat - (((⟨952214638, 0, UTC⟩ : Time).Unix -
          (Date 1899 12 30 0 0 0 0 UTC).Unix : ℤ) : ℚ) / 86400| ≤ 2 ^ 17 / 2 ^ 52 :=
  C9_serial_up_to_rounding ⟨952214638, 0, UTC⟩ 17 rfl (by decide) (by decide!) (by decide)

end PgSheets
